import Mathlib

/-!
Verification development for the vaultd offline signing vault.

The Go sources are shallowly embedded: pure functions become Lean
functions over `Nat` / `List Nat` (a Go byte is a `Nat` below 256, a byte
slice a `List Nat`), stateful code becomes explicit state passing, and
fallible code returns `Except` or pairs a result with an optional error.
External cryptographic collaborators (Argon2id, XChaCha20-Poly1305,
BLAKE2b, Ed25519 key derivation) are idealized as injective constructors:
a derived key is the pair of its inputs, an AEAD blob records the sealing
key and plaintext and opens successfully exactly under the sealing key,
and a derived key pair is determined by its seed and index.  Each
definition follows the corresponding Go function; deviations forced by
the embedding are noted in comments.
-/

/-- Errors of the vault core and its store, mirroring the error values in
vault/vault.go.  Go error wrapping with the %w verb is modelled by the
`wrapped` constructor; ad-hoc errors built from strings by the `other`
constructor. -/
inductive VErr where
  | notFound
  | saltSet
  | incorrectSecret
  | unlocked
  | locked
  | invalidSize
  | wrapped (msg : String) (inner : VErr)
  | other (msg : String)
deriving DecidableEq

/-- Embedding of errors.Is: the target matches the error itself or any
error reachable by unwrapping. -/
def VErr.is (e target : VErr) : Bool :=
  e == target ||
    match e with
    | .wrapped _ inner => inner.is target
    | _ => false

/-! ## internal/siad mnemonics (legacy 28/29-word recovery phrases)

The codec works on dictionary indices: the Go code maps each word of the
phrase to the index of the first dictionary entry matching its first
three NFC runes, and maps indices back to words when encoding.  The
1626-entry dictionary itself is dictionary data outside the arithmetic
core, so a phrase is embedded as its list of dictionary indices (each
below 1626); the word-to-index prefix lookup and the index-to-word lookup
cancel for phrases made of dictionary entries. -/

/-- Embedding of intToBytes from internal/siad/mnemonics.go: the loop
emits digits in base 256 with the offset scheme that preserves leading
zeros (digit = bi mod 256, then bi becomes bi/256 - 1).  The Go version
works on a nonnegative big.Int whenever the input comes from a nonempty
phrase, which is the only way it is reached. -/
def intToBytes (n : Nat) : List Nat :=
  if n < 256 then [n]
  else n % 256 :: intToBytes (n / 256 - 1)
termination_by n
decreasing_by
  have h0 : 0 < n := by omega
  have := Nat.div_lt_self h0 (by norm_num : 1 < 256)
  omega

/-- Embedding of bytesToInt from internal/siad/mnemonics.go: the inverse
accumulation result = sum of (bs[i]+1) * 256^i, minus 1.  The forward
loop with a running exponent is expressed as the equivalent right fold.
The Go function takes a pointer to a 32-byte array; length 32 is imposed
at the call sites below. -/
def bytesToInt (bs : List Nat) : Nat :=
  (bs.foldr (fun b acc => (b + 1) + 256 * acc) 0) - 1

/-- Embedding of phraseToInt from internal/siad/mnemonics.go, at the
level of dictionary indices: result = sum of (j_k+1) * 1626^k, minus 1.
For a nonempty phrase the Go big.Int result is nonnegative, so the Nat
subtraction agrees with it. -/
def phraseToInt (p : List Nat) : Nat :=
  (p.foldr (fun j acc => (j + 1) + 1626 * acc) 0) - 1

/-- Embedding of intToPhrase from internal/siad/mnemonics.go, producing
dictionary indices (the Go code emits dict[i] for each index i). -/
def intToPhrase (n : Nat) : List Nat :=
  if n < 1626 then [n]
  else n % 1626 :: intToPhrase (n / 1626 - 1)
termination_by n
decreasing_by
  have h0 : 0 < n := by omega
  have := Nat.div_lt_self h0 (by norm_num : 1 < 1626)
  omega

/-- Embedding of SeedFromPhrase from internal/siad/mnemonics.go: decode
the phrase to its integer, expand to little-endian bytes, and copy the
first 32 bytes into a zero-initialized 32-byte seed buffer (Go copy
truncates to the destination length and leaves the rest zero). -/
def SeedFromPhrase (p : List Nat) : List Nat :=
  let bs := intToBytes (phraseToInt p)
  bs.take 32 ++ List.replicate (32 - bs.length) 0

/-- Modelled from the spec: SeedToPhrase is exercised by the round-trip
assertion in the mnemonics test of the repository but its definition is
absent from the provided sources.  The spec (section 4.1) describes
encoding as inverting decode steps 3-4, i.e. converting the byte
sequence back to the big integer and the integer back to words. -/
def SeedToPhrase (seed : List Nat) : List Nat :=
  intToPhrase (bytesToInt seed)

/-! ### Round-trip lemmas for the codec -/

theorem intToBytes_foldr (n : Nat) :
    (intToBytes n).foldr (fun b acc => (b + 1) + 256 * acc) 0 = n + 1 := by
  induction n using Nat.strong_induction_on with
  | _ n ih =>
    rw [intToBytes]
    by_cases h : n < 256
    · simp [h]
    · have hdiv : n / 256 - 1 < n := by
        have h0 : 0 < n := by omega
        have := Nat.div_lt_self h0 (by norm_num : 1 < 256)
        omega
      rw [if_neg h, List.foldr_cons, ih _ hdiv]
      omega

theorem bytesToInt_intToBytes (n : Nat) : bytesToInt (intToBytes n) = n := by
  unfold bytesToInt
  rw [intToBytes_foldr]
  omega

theorem phraseToInt_foldr_pos (p : List Nat) (h : p ≠ []) :
    1 ≤ p.foldr (fun j acc => (j + 1) + 1626 * acc) 0 := by
  cases p with
  | nil => exact absurd rfl h
  | cons j rest =>
    rw [List.foldr_cons]
    omega

theorem intToPhrase_phraseToInt (p : List Nat) (hne : p ≠ [])
    (hlt : ∀ j ∈ p, j < 1626) : intToPhrase (phraseToInt p) = p := by
  induction p with
  | nil => exact absurd rfl hne
  | cons j rest ih =>
    have hj : j < 1626 := hlt j (by simp)
    by_cases hr : rest = []
    · subst hr
      have hval : phraseToInt [j] = j := by
        unfold phraseToInt
        simp
      rw [hval, intToPhrase, if_pos hj]
    · have hpos : 1 ≤ rest.foldr (fun j acc => (j + 1) + 1626 * acc) 0 :=
        phraseToInt_foldr_pos rest hr
      have hval : phraseToInt (j :: rest) =
          j + 1626 * (rest.foldr (fun j acc => (j + 1) + 1626 * acc) 0) := by
        unfold phraseToInt
        rw [List.foldr_cons]
        omega
      rw [hval, intToPhrase]
      have hge : ¬ (j + 1626 * (rest.foldr (fun j acc => (j + 1) + 1626 * acc) 0) < 1626) := by
        omega
      rw [if_neg hge]
      have hmod : (j + 1626 * (rest.foldr (fun j acc => (j + 1) + 1626 * acc) 0)) % 1626 = j := by
        omega
      have hdiv : (j + 1626 * (rest.foldr (fun j acc => (j + 1) + 1626 * acc) 0)) / 1626 - 1 =
          phraseToInt rest := by
        unfold phraseToInt
        omega
      rw [hmod, hdiv, ih hr (fun x hx => hlt x (by simp [hx]))]

/-! ## Idealized cryptographic collaborators

The vault derives one 32-byte key from (secret, salt) via Argon2id and
uses it both as the XChaCha20-Poly1305 AEAD key and as the BLAKE2b MAC
key.  These primitives are external to the repository and are idealized:
a derived key is the formal pair of its inputs (Argon2id is
deterministic and treated as collision-free), an AEAD blob records its
nonce, sealing key and plaintext and authenticates exactly under its
sealing key, a MAC value is the formal pair of key and message, and
wallet.KeyFromSeed is the formal pair of seed and index with the public
key determined by the private key. -/

/-- Idealized Argon2id output: the derived encryption key, identified
with its (secret, salt) inputs. -/
structure DKey where
  secret : String
  salt : List Nat
deriving DecidableEq

/-- Idealized XChaCha20-Poly1305 sealed blob nonce data ct tag: records
the random nonce, the sealing key and the plaintext.  aead.Open succeeds
exactly when opened under the sealing key, in which case it returns the
plaintext; under any other key it fails with a message-authentication
error. -/
structure EncBlob where
  nonce : List Nat
  key : DKey
  plaintext : List Nat
deriving DecidableEq

/-- Idealized keyed-BLAKE2b-256 MAC value over a message. -/
structure MacV where
  key : DKey
  data : List Nat
deriving DecidableEq

/-- Public keys: either derived from a seed at an index (the idealized
image of wallet.KeyFromSeed(seed, index).PublicKey()) or an arbitrary
raw 32-byte key that is not in the vault. -/
inductive VPK where
  | derived (seed : List Nat) (index : Nat)
  | raw (bytes : List Nat)
deriving DecidableEq

/-- Idealized Ed25519 private key derived from a seed at an index. -/
structure VSK where
  seed : List Nat
  index : Nat
deriving DecidableEq

/-- Idealized wallet.KeyFromSeed. -/
def KeyFromSeed (seed : List Nat) (index : Nat) : VSK := ⟨seed, index⟩

/-- Idealized sk.PublicKey(). -/
def VSK.publicKey (sk : VSK) : VPK := .derived sk.seed sk.index

/-- Idealized Ed25519 signature: determined by the signing key and the
signed hash (hashes are abstracted as Nat). -/
structure VSig where
  key : VSK
  hash : Nat
deriving DecidableEq

/-- Idealized sk.SignHash. -/
def VSK.signHash (sk : VSK) (h : Nat) : VSig := ⟨sk, h⟩

/-! ## persist/sqlite store

The store is embedded as the record of its three tables
(persist/sqlite/init.sql): seeds(id, seed_mac UNIQUE, encrypted_seed,
date_created), signing_keys(public_key PRIMARY KEY, seed_id,
seed_index), and the single-row global_settings with its nullable
key_salt.  Rows are kept in insertion (rowid) order.  Each public
operation of persist/sqlite/vault.go becomes a pure function; the
current time, supplied in Go by time.Now(), is an explicit argument. -/

structure SeedRow where
  id : Int
  seedMac : MacV
  encryptedSeed : EncBlob
  dateCreated : Int
deriving DecidableEq

structure KeyRow where
  publicKey : VPK
  seedId : Int
  seedIndex : Nat
deriving DecidableEq

structure Store where
  seeds : List SeedRow
  signingKeys : List KeyRow
  keySalt : Option (List Nat)
deriving DecidableEq

structure SeedMeta where
  id : Int
  lastIndex : Nat
  createdAt : Int
deriving DecidableEq

/-- Fresh INTEGER PRIMARY KEY for an insert into seeds: SQLite assigns
one greater than the largest rowid in use (1 for an empty table). -/
def Store.nextRowId (s : Store) : Int :=
  (s.seeds.foldl (fun m r => max m r.id) 0) + 1

/-- COALESCE(MAX(seed_index), 0) over the signing keys of one seed, as
in the seedMeta query of persist/sqlite/vault.go. -/
def Store.lastIndexOf (s : Store) (seedID : Int) : Nat :=
  ((s.signingKeys.filter (fun r => r.seedId == seedID)).map (fun r => r.seedIndex)).foldl
    max 0

/-- Embedding of the seedMeta helper of persist/sqlite/vault.go: reads
date_created of the seed row (ErrNotFound when absent) and the greatest
derived index. -/
def Store.seedMetaRow (s : Store) (seedID : Int) : Except VErr SeedMeta :=
  match s.seeds.find? (fun r => r.id == seedID) with
  | none => .error .notFound
  | some r => .ok ⟨seedID, s.lastIndexOf seedID, r.dateCreated⟩

/-- Embedding of Store.AddSeed: INSERT with ON CONFLICT (seed_mac)
DO UPDATE SET seed_mac = EXCLUDED.seed_mac RETURNING id.  On a MAC
conflict SQLite keeps the existing row (the no-op update rewrites only
seed_mac with its own value) and returns the existing id; otherwise a
fresh row is appended.  The metadata of the resulting id is returned. -/
def Store.AddSeed (s : Store) (mac : MacV) (encryptedSeed : EncBlob) (now : Int) :
    Store × Except VErr SeedMeta :=
  match s.seeds.find? (fun r => r.seedMac == mac) with
  | some r => (s, s.seedMetaRow r.id)
  | none =>
    let id := s.nextRowId
    let s1 : Store := { s with seeds := s.seeds ++ [⟨id, mac, encryptedSeed, now⟩] }
    (s1, s1.seedMetaRow id)

/-- Embedding of Store.Seed. -/
def Store.Seed (s : Store) (seedID : Int) : Except VErr EncBlob :=
  match s.seeds.find? (fun r => r.id == seedID) with
  | none => .error .notFound
  | some r => .ok r.encryptedSeed

/-- Embedding of Store.SeedMeta (named SeedMetaOf here because the Lean
name Store.SeedMeta would shadow the SeedMeta record in later
signatures). -/
def Store.SeedMetaOf (s : Store) (seedID : Int) : Except VErr SeedMeta :=
  s.seedMetaRow seedID

/-- Embedding of Store.SigningKeyIndex. -/
def Store.SigningKeyIndex (s : Store) (pk : VPK) : Except VErr (Int × Nat) :=
  match s.signingKeys.find? (fun r => r.publicKey == pk) with
  | none => .error .notFound
  | some r => .ok (r.seedId, r.seedIndex)

/-- Embedding of Store.AddKeyIndex: INSERT ON CONFLICT (public_key)
DO NOTHING. -/
def Store.AddKeyIndex (s : Store) (seedID : Int) (pk : VPK) (index : Nat) : Store :=
  if s.signingKeys.any (fun r => r.publicKey == pk) then s
  else { s with signingKeys := s.signingKeys ++ [⟨pk, seedID, index⟩] }

/-- Embedding of Store.NextIndex: ErrNotFound when the seed is missing;
otherwise one past the greatest derived index, or 0 when no key has been
derived (the ErrNoRows branch leaves the zero default in place). -/
def Store.NextIndex (s : Store) (seedID : Int) : Except VErr Nat :=
  if s.seeds.any (fun r => r.id == seedID) then
    match s.signingKeys.filter (fun r => r.seedId == seedID) with
    | [] => .ok 0
    | rows => .ok ((rows.map (fun r => r.seedIndex)).foldl max 0 + 1)
  else .error .notFound

/-- Insertion of a key row into a list sorted by ascending seed_index
(helper for the ORDER BY seed_index ASC queries). -/
def insertByIndex (r : KeyRow) : List KeyRow → List KeyRow
  | [] => [r]
  | x :: xs => if r.seedIndex ≤ x.seedIndex then r :: x :: xs else x :: insertByIndex r xs

/-- Stable sort by ascending seed_index. -/
def sortByIndex : List KeyRow → List KeyRow
  | [] => []
  | x :: xs => insertByIndex x (sortByIndex xs)

/-- Embedding of Store.SeedKeys: ErrNotFound when the seed is missing,
otherwise the public keys of the seed ordered by seed_index ascending,
with OFFSET and LIMIT applied. -/
def Store.SeedKeys (s : Store) (seedID : Int) (offset limit : Nat) :
    Except VErr (List VPK) :=
  if s.seeds.any (fun r => r.id == seedID) then
    .ok ((((sortByIndex (s.signingKeys.filter (fun r => r.seedId == seedID))).drop
      offset).take limit).map (fun r => r.publicKey))
  else .error .notFound

/-- Insertion of a seed row into a list sorted by ascending
date_created (helper for the Seeds listing). -/
def insertByCreated (r : SeedRow) : List SeedRow → List SeedRow
  | [] => [r]
  | x :: xs => if r.dateCreated ≤ x.dateCreated then r :: x :: xs else x :: insertByCreated r xs

/-- Stable sort by ascending date_created. -/
def sortByCreated : List SeedRow → List SeedRow
  | [] => []
  | x :: xs => insertByCreated x (sortByCreated xs)

/-- Modelled from the spec: the Seeds implementation of the sqlite store
is declared in the vault Store interface and called by Vault.Seeds, but
its body is absent from the provided sources.  The spec (section 4.2)
specifies Seeds(limit, offset) as the stored seed metadata ordered by
created_at ascending with the given bounds. -/
def Store.Seeds (s : Store) (limit offset : Nat) : List SeedMeta :=
  (((sortByCreated s.seeds).drop offset).take limit).map
    (fun r => ⟨r.id, s.lastIndexOf r.id, r.dateCreated⟩)

/-- Embedding of Store.KeySalt: the stored salt bytes, or an empty slice
when the key_salt column is NULL. -/
def Store.KeySalt (s : Store) : Except VErr (List Nat) :=
  .ok (s.keySalt.getD [])

/-- Embedding of Store.SetKeySalt: UPDATE ... WHERE key_salt IS NULL;
ErrSaltSet when no row was affected because a salt is already set. -/
def Store.SetKeySalt (s : Store) (salt : List Nat) : Store × Except VErr Unit :=
  match s.keySalt with
  | some _ => (s, .error .saltSet)
  | none => ({ s with keySalt := some salt }, .ok ())

/-- Embedding of Store.BytesForVerify: SELECT encrypted_seed FROM seeds
LIMIT 1, i.e. an arbitrary (first in rowid order) stored blob, or
ErrNotFound when no seed exists. -/
def Store.BytesForVerify (s : Store) : Except VErr EncBlob :=
  match s.seeds with
  | [] => .error .notFound
  | r :: _ => .ok r.encryptedSeed

/-! ## vault core (vault/vault.go)

The Vault owns two optional capabilities, the AEAD and the MAC, both
keyed by the Argon2id-derived key; it is locked when either is absent.
Methods are embedded as pure functions of the vault state and the store
state; methods that can modify the store return the new store.  The
thread-group registration and the mutex of the Go code have no
sequential content and are omitted; the receiver fields aead and mac are
only ever assigned by Unlock and Lock, which the embeddings of the other
methods reflect by not returning a vault state. -/

/-- State of the Vault: the optional AEAD and MAC capabilities, each
carrying the derived key.  Both are nil in a freshly constructed vault
(vault.New) and after Lock. -/
structure Vault where
  aead : Option DKey
  mac : Option DKey
deriving DecidableEq

/-- Embedding of Vault.isLocked: nil iff both capabilities are
installed, ErrLocked otherwise. -/
def Vault.isLocked (v : Vault) : Option VErr :=
  if v.aead.isSome && v.mac.isSome then none else some .locked

/-- Embedding of Vault.derivePrivateKey: requires the vault unlocked,
fetches the encrypted seed (wrapping store errors), opens it with the
AEAD (failure under a non-matching key is an authentication failure),
and derives the key at the given index.  The Go panic on a plaintext
whose length is not 32 is modelled by the distinguished error
invalidSize. -/
def Vault.derivePrivateKey (v : Vault) (s : Store) (seedID : Int) (index : Nat) :
    Except VErr VSK :=
  match v.aead, v.mac with
  | some ka, some _ =>
    match s.Seed seedID with
    | .error e => .error (.wrapped "failed to get seed" e)
    | .ok blob =>
      if blob.key = ka then
        if blob.plaintext.length = 32 then .ok (KeyFromSeed blob.plaintext index)
        else .error .invalidSize
      else .error (.wrapped "failed to decrypt seed" (.other "message authentication failed"))
  | _, _ => .error .locked

/-- Embedding of Vault.Sign: the signing-key lookup in the store comes
first and its error (including ErrNotFound) is wrapped and returned
before any lock check; only then is the private key derived (which is
where a locked vault produces ErrLocked). -/
def Vault.Sign (v : Vault) (s : Store) (pk : VPK) (h : Nat) : Except VErr VSig :=
  match s.SigningKeyIndex pk with
  | .error e => .error (.wrapped "failed to get signing key" e)
  | .ok (seedID, index) =>
    match v.derivePrivateKey s seedID index with
    | .error e => .error (.wrapped "failed to derive private key" e)
    | .ok sk => .ok (sk.signHash h)

/-- Embedding of Vault.AddSeed: requires the vault unlocked, MACs the
seed with the keyed BLAKE2b instance, seals it under a fresh random
nonce (an explicit argument here), and stores MAC and blob. -/
def Vault.AddSeed (v : Vault) (s : Store) (seed : List Nat) (nonce : List Nat) (now : Int) :
    Store × Except VErr SeedMeta :=
  match v.aead, v.mac with
  | some ka, some km => s.AddSeed ⟨km, seed⟩ ⟨nonce, ka, seed⟩ now
  | _, _ => (s, .error .locked)

/-- Embedding of Vault.Seeds: passes straight through to the store with
no lock check. -/
def Vault.Seeds (_v : Vault) (s : Store) (limit offset : Nat) : List SeedMeta :=
  s.Seeds limit offset

/-- Embedding of Vault.SeedMeta (see Store.SeedMetaOf for the name):
passes straight through to the store with no lock check. -/
def Vault.SeedMetaOf (_v : Vault) (s : Store) (seedID : Int) : Except VErr SeedMeta :=
  s.SeedMetaOf seedID

/-- Embedding of Vault.SeedKeys: passes straight through to the store
with no lock check. -/
def Vault.SeedKeys (_v : Vault) (s : Store) (seedID : Int) (offset limit : Nat) :
    Except VErr (List VPK) :=
  s.SeedKeys seedID offset limit

/-- Embedding of Vault.NextKey: next index from the store (its error,
e.g. ErrNotFound for an unknown seed, is wrapped and returned first),
then derivePrivateKey (where a locked vault produces ErrLocked), then
the idempotent AddKeyIndex. -/
def Vault.NextKey (v : Vault) (s : Store) (seedID : Int) :
    Store × Except VErr VPK :=
  match s.NextIndex seedID with
  | .error e => (s, .error (.wrapped "failed to get next index" e))
  | .ok index =>
    match v.derivePrivateKey s seedID index with
    | .error e => (s, .error (.wrapped "failed to derive private key" e))
    | .ok sk => (s.AddKeyIndex seedID sk.publicKey index, .ok sk.publicKey)

/-- Embedding of Vault.Unlock.  The three store calls KeySalt,
SetKeySalt and BytesForVerify are made at most once each and in this
order; their results are explicit arguments so that interleavings with
concurrent store writers (such as a salt set between KeySalt and
SetKeySalt) are expressible.  freshSalt stands for the 32 random bytes
drawn when no salt is stored.  Constructing the AEAD and MAC from a
32-byte Argon2id key cannot fail.  A verification blob that does not
authenticate under the derived key yields ErrIncorrectSecret (the AEAD
open error contains "message authentication failed"); ErrNotFound from
BytesForVerify means no seed exists and the key is accepted.  On any
error the vault state is returned unchanged: the capabilities are only
installed on success. -/
def Vault.Unlock (v : Vault) (keySaltRes : Except VErr (List Nat))
    (freshSalt : List Nat) (setKeySaltRes : Except VErr Unit)
    (bytesForVerifyRes : Except VErr EncBlob) (secret : String) :
    Vault × Option VErr :=
  if v.aead.isSome && v.mac.isSome then (v, some .unlocked)
  else
    match keySaltRes with
    | .error e => (v, some (.wrapped "failed to get key salt" e))
    | .ok salt0 =>
      let saltRes : Except VErr (List Nat) :=
        if salt0.length = 0 then
          match setKeySaltRes with
          | .error e => .error (.wrapped "failed to set key salt" e)
          | .ok _ => .ok freshSalt
        else .ok salt0
      match saltRes with
      | .error e => (v, some e)
      | .ok salt =>
        let k : DKey := ⟨secret, salt⟩
        match bytesForVerifyRes with
        | .error e =>
          if e.is .notFound then (⟨some k, some k⟩, none)
          else (v, some (.wrapped "failed to get bytes for verify" e))
        | .ok blob =>
          if blob.key = k then (⟨some k, some k⟩, none)
          else (v, some .incorrectSecret)

/-- Embedding of Vault.Lock: clears both capabilities; idempotent. -/
def Vault.Lock (_ : Vault) : Vault := ⟨none, none⟩

/-! ## api layer (api/server.go)

The HTTP handlers are embedded as pure functions from the decoded
request to an HTTP result.  The vault is abstracted behind the function
a.vault.Sign, passed in as an argument vsign (public keys at this layer
are raw 32-byte values, as in types.PublicKey); the sighash primitives
WholeSigHash, PartialSigHash and InputSigHash are opaque collaborators
passed as function arguments, applied to the consensus state and the
request transaction as decoded (the handlers never re-hash a partially
updated transaction in a way any claim depends on).  The chain
collaborator is the result of its one TipState call. -/

/-- HTTP outcome of a handler: a JSON-encoded success value or an error
status with the error that was serialized. -/
inductive HResp (α : Type) where
  | ok (val : α)
  | err (status : Nat) (e : VErr)
deriving DecidableEq

/-- HardforkV2 heights of consensus.Network (the only fields the
handlers read). -/
structure Network where
  allowHeight : Nat
  requireHeight : Nat
deriving DecidableEq

/-- Consensus state as used by the handlers: the chain height and the
network pointer (a missing network on the wire is represented by the
Option in the request, not here). -/
structure CState where
  height : Nat
  network : Network
deriving DecidableEq

/-- Embedding of api.getConsensusState: both provided means the request
state used verbatim with its network pointer replaced by the request
network; both omitted means the external TipState result; exactly one
provided is an error (which the callers turn into HTTP 400). -/
def getConsensusState (tipRes : Except VErr CState) :
    Option CState → Option Network → Except VErr CState
  | some st, some nw => .ok { st with network := nw }
  | none, none => tipRes
  | none, some _ => .error (.other "state must be provided if network is provided")
  | some _, none => .error (.other "network must be provided if state is provided")

/-- Raw 32-byte public key as it appears in API transactions. -/
abbrev PublicKeyBytes := List Nat

/-- Specifier of the Ed25519 algorithm in unlock keys. -/
def specifierEd25519 : String := "ed25519"

structure UnlockKey where
  algorithm : String
  key : List Nat
deriving DecidableEq

structure UnlockConditions where
  timelock : Nat
  publicKeys : List UnlockKey
  signaturesRequired : Nat
deriving DecidableEq

structure SiacoinInput where
  parentID : Nat
  unlockConditions : UnlockConditions
deriving DecidableEq

structure SiafundInput where
  parentID : Nat
  unlockConditions : UnlockConditions
deriving DecidableEq

/-- Covered fields of a v1 transaction signature.  Only the
WholeTransaction flag is inspected by the handler; the individual
covered-index lists are opaque to it and are carried by the abstract
PartialSigHash argument. -/
structure CoveredFields where
  wholeTransaction : Bool
deriving DecidableEq

structure TransactionSignature where
  parentID : Nat
  publicKeyIndex : Nat
  timelock : Nat
  coveredFields : CoveredFields
  signature : Option Nat
deriving DecidableEq

structure Transaction where
  siacoinInputs : List SiacoinInput
  siafundInputs : List SiafundInput
  signatures : List TransactionSignature
deriving DecidableEq

structure SignResponse where
  transaction : Transaction
  fullySigned : Bool
deriving DecidableEq

/-- Embedding of the getUnlockConditions closure in handlePOSTSign:
scan the siacoin inputs, then the siafund inputs, for a parent id. -/
def getUnlockConditions (txn : Transaction) (id : Nat) : Option UnlockConditions :=
  match txn.siacoinInputs.find? (fun inp => inp.parentID == id) with
  | some inp => some inp.unlockConditions
  | none =>
    match txn.siafundInputs.find? (fun inp => inp.parentID == id) with
    | some inp => some inp.unlockConditions
    | none => none

/-- Embedding of the publicKeyForSigning closure in handlePOSTSign:
resolve the input by parent id, bound-check the public key index, and
reject non-Ed25519 algorithms and keys that are not 32 bytes. -/
def publicKeyForSigning (txn : Transaction) (id : Nat) (pubKeyIndex : Nat) :
    Option PublicKeyBytes :=
  match getUnlockConditions txn id with
  | none => none
  | some uc =>
    match uc.publicKeys[pubKeyIndex]? with
    | none => none
    | some uk =>
      if uk.algorithm ≠ specifierEd25519 then none
      else if uk.key.length ≠ 32 then none
      else some uk.key

/-- Embedding of the signature loop of handlePOSTSign: entries with a
signature already present count as signed; entries whose public key
cannot be resolved are skipped; the digest is the whole-transaction or
the partial sighash; ErrNotFound from the vault skips the entry, any
other vault error aborts the whole request (HTTP 500 in the handler).
Returns the updated signature list and the number signed. -/
def signV1Loop (vsign : PublicKeyBytes → Nat → Except VErr Nat)
    (whole : Nat → Nat → Nat → Nat) (covered : CoveredFields → Nat)
    (txn : Transaction) :
    List TransactionSignature → Except VErr (List TransactionSignature × Nat)
  | [] => .ok ([], 0)
  | sig :: rest => do
    let (sig1, inc) ←
      (if sig.signature.isSome then .ok (sig, 1)
       else
         match publicKeyForSigning txn sig.parentID sig.publicKeyIndex with
         | none => .ok (sig, 0)
         | some pk =>
           let h := if sig.coveredFields.wholeTransaction then
               whole sig.parentID sig.publicKeyIndex sig.timelock
             else covered sig.coveredFields
           match vsign pk h with
           | .error e => if e.is .notFound then .ok (sig, 0) else .error e
           | .ok sb => .ok ({ sig with signature := some sb }, 1) :
        Except VErr (TransactionSignature × Nat))
    let (rest1, cnt) ← signV1Loop vsign whole covered txn rest
    .ok (sig1 :: rest1, cnt + inc)

/-- Embedding of handlePOSTSign as in the current api/server.go: decode,
resolve the consensus state (errors give HTTP 400), then fill
signatures.  The current revision performs no hardfork height check on
v1 requests (the earlier revision rejected heights at or above the v2
require height before signing).  With zero signatures added the request
fails with HTTP 400, otherwise the updated transaction is returned with
fullySigned set iff every entry is signed. -/
def handlePOSTSign (tipRes : Except VErr CState) (stateReq : Option CState)
    (networkReq : Option Network) (vsign : PublicKeyBytes → Nat → Except VErr Nat)
    (whole : CState → Transaction → Nat → Nat → Nat → Nat)
    (covered : CState → Transaction → CoveredFields → Nat)
    (txn : Transaction) : HResp SignResponse :=
  match getConsensusState tipRes stateReq networkReq with
  | .error e => .err 400 e
  | .ok cs =>
    match signV1Loop vsign (whole cs txn) (covered cs txn) txn txn.signatures with
    | .error e => .err 500 e
    | .ok (sigs1, signed) =>
      if signed = 0 then .err 400 (.other "no signatures were added")
      else .ok ⟨{ txn with signatures := sigs1 }, signed == txn.signatures.length⟩

/-! ### v2 signing (handlePOSTSignV2) -/

/-- Spend policies as a tagged variant (types.SpendPolicy).  The
type switch of the handler acts on threshold, publicKey and
unlockConditions; every other variant (above, after, hash, opaque)
falls through as a no-op. -/
inductive SpendPolicy where
  | above (height : Nat)
  | after (timestamp : Nat)
  | publicKey (pk : PublicKeyBytes)
  | hash (h : Nat)
  | threshold (n : Nat) (of : List SpendPolicy)
  | opaq (addr : Nat)
  | unlockConditions (uc : UnlockConditions)

/-- Embedding of the UnlockConditions arm of signPolicy: walk the
public keys, stopping once SignaturesRequired signatures were gathered;
a non-Ed25519 or non-32-byte key aborts with an error; ErrNotFound from
the vault skips the key; any other vault error aborts.  The uint64
counter cannot wrap at list lengths.  Returns the final counter, the
accumulated signatures and the optional abort error. -/
def signUCKeys (vsign : PublicKeyBytes → Except VErr Nat) (required : Nat) :
    List UnlockKey → Nat → List Nat → Nat × List Nat × Option VErr
  | [], signed, sigs => (signed, sigs, none)
  | uk :: rest, signed, sigs =>
    if signed = required then (signed, sigs, none)
    else if uk.algorithm ≠ specifierEd25519 ∨ uk.key.length ≠ 32 then
      (signed, sigs, some (.other "unsupported public key algorithm"))
    else
      match vsign uk.key with
      | .error e =>
        if e.is .notFound then signUCKeys vsign required rest signed sigs
        else (signed, sigs, some (.wrapped "failed to sign policy" e))
      | .ok s => signUCKeys vsign required rest (signed + 1) (sigs ++ [s])

mutual

/-- Embedding of the recursive signPolicy closure of handlePOSTSignV2.
Signatures are appended through a pointer in Go, so appends made before
a failure persist: the embedding returns the accumulated signature list
together with the optional error.  In the threshold arm the counter is
incremented after every recursive call, not only when a signature was
actually produced (the uint8 counter cannot wrap before reaching N at
list lengths below 256, and N is a uint8). -/
def signPolicy (vsign : PublicKeyBytes → Except VErr Nat) :
    SpendPolicy → List Nat → List Nat × Option VErr
  | .threshold n of, sigs =>
    match signThreshold vsign n 0 of sigs with
    | (signed, sigs1, none) =>
      if signed < n then (sigs1, some (.other "threshold not met")) else (sigs1, none)
    | (_, sigs1, some e) => (sigs1, some e)
  | .publicKey pk, sigs =>
    match vsign pk with
    | .error e =>
      if e.is .notFound then (sigs, none)
      else (sigs, some (.wrapped "failed to sign policy" e))
    | .ok s => (sigs ++ [s], none)
  | .unlockConditions uc, sigs =>
    match signUCKeys vsign uc.signaturesRequired uc.publicKeys 0 sigs with
    | (signed, sigs1, none) =>
      if signed < uc.signaturesRequired then
        (sigs1, some (.other "required signatures not met"))
      else (sigs1, none)
    | (_, sigs1, some e) => (sigs1, some e)
  | .above _, sigs => (sigs, none)
  | .after _, sigs => (sigs, none)
  | .hash _, sigs => (sigs, none)
  | .opaq _, sigs => (sigs, none)

/-- The loop of the threshold arm: stop once the counter reaches N,
abort on a sub-policy error, and otherwise increment the counter after
each recursive call regardless of whether it signed anything. -/
def signThreshold (vsign : PublicKeyBytes → Except VErr Nat) (n : Nat) (signed : Nat) :
    List SpendPolicy → List Nat → Nat × List Nat × Option VErr
  | [], sigs => (signed, sigs, none)
  | sub :: rest, sigs =>
    if signed = n then (signed, sigs, none)
    else
      match signPolicy vsign sub sigs with
      | (sigs1, none) => signThreshold vsign n (signed + 1) rest sigs1
      | (sigs1, some e) => (signed, sigs1, some e)

end

/-- Satisfied policy of a v2 input: the policy and the signatures
accumulated for it (preimages are untouched by the handler and
omitted). -/
structure SatisfiedPolicy where
  policy : SpendPolicy
  signatures : List Nat

structure V2SiacoinInput where
  satisfiedPolicy : SatisfiedPolicy

structure V2SiafundInput where
  satisfiedPolicy : SatisfiedPolicy

structure V2Transaction where
  siacoinInputs : List V2SiacoinInput
  siafundInputs : List V2SiafundInput

structure SignV2Response where
  transaction : V2Transaction
  fullySigned : Bool

/-- One input of the v2 handler loop: run signPolicy on the satisfied
policy, keep whatever signatures were appended, and report whether it
succeeded (a failure clears the fullySigned flag of the response but
does not abort the request). -/
def signSatisfied (vs : PublicKeyBytes → Except VErr Nat) (sp : SatisfiedPolicy) :
    SatisfiedPolicy × Bool :=
  match signPolicy vs sp.policy sp.signatures with
  | (sigs1, none) => (⟨sp.policy, sigs1⟩, true)
  | (sigs1, some _) => (⟨sp.policy, sigs1⟩, false)

/-- Embedding of handlePOSTSignV2: resolve the consensus state (errors
give HTTP 400), reject heights below the v2 allow height with HTTP 400,
compute the one input sighash of the transaction, and satisfy the
policy of every siacoin and siafund input; the transaction is always
returned and fullySigned is true iff no input failed. -/
def handlePOSTSignV2 (tipRes : Except VErr CState) (stateReq : Option CState)
    (networkReq : Option Network) (vsign : PublicKeyBytes → Nat → Except VErr Nat)
    (inputSigHash : CState → V2Transaction → Nat) (txn : V2Transaction) :
    HResp SignV2Response :=
  match getConsensusState tipRes stateReq networkReq with
  | .error e => .err 400 e
  | .ok cs =>
    if cs.height < cs.network.allowHeight then
      .err 400 (.other "v2 transactions are not supported until after the allow height")
    else
      let h := inputSigHash cs txn
      let vs := fun pk => vsign pk h
      let sc := txn.siacoinInputs.map (fun inp => signSatisfied vs inp.satisfiedPolicy)
      let sf := txn.siafundInputs.map (fun inp => signSatisfied vs inp.satisfiedPolicy)
      .ok ⟨⟨sc.map (fun x => ⟨x.1⟩), sf.map (fun x => ⟨x.1⟩)⟩,
        (sc.all (fun x => x.2)) && (sf.all (fun x => x.2))⟩

/-! ## Claim C7: legacy phrase round-trip -/

theorem phraseToInt_rep28 : phraseToInt (List.replicate 28 0) =
    501789754764251860910463263252449066406023587422655300774999371735825134956355965754902 := by
  simp [phraseToInt, List.replicate]

theorem intToBytes_rep28 : intToBytes
    501789754764251860910463263252449066406023587422655300774999371735825134956355965754902 =
    [22, 29, 40, 2, 26, 82, 243, 24, 68, 198, 123, 79, 181, 85, 133, 3, 166, 133, 176, 206,
     185, 230, 217, 64, 67, 190, 102, 9, 31, 226, 18, 92, 36, 149, 75, 1, 0] := by
  simp [intToBytes]

theorem seedFromPhrase_rep28 : SeedFromPhrase (List.replicate 28 0) =
    [22, 29, 40, 2, 26, 82, 243, 24, 68, 198, 123, 79, 181, 85, 133, 3, 166, 133, 176, 206,
     185, 230, 217, 64, 67, 190, 102, 9, 31, 226, 18, 92] := by
  rw [SeedFromPhrase, phraseToInt_rep28, intToBytes_rep28]
  decide

theorem seedToPhrase_rep28 : SeedToPhrase
    [22, 29, 40, 2, 26, 82, 243, 24, 68, 198, 123, 79, 181, 85, 133, 3, 166, 133, 176, 206,
     185, 230, 217, 64, 67, 190, 102, 9, 31, 226, 18, 92] =
    [868, 466, 1388, 1475, 1500, 729, 965, 674, 692, 1545, 1090, 507, 500, 1457, 131, 285,
     405, 547, 129, 310, 65, 7, 1348, 585] := by
  simp [SeedToPhrase, bytesToInt, intToPhrase]

/-- C7 counterexample: the 28-word phrase made of dictionary word 0
repeated (a valid legacy phrase: 28 words, all dictionary entries) does
not round-trip: SeedFromPhrase truncates its 37-byte little-endian
expansion to the 32-byte seed buffer, and re-encoding the seed yields a
24-word phrase. -/
theorem phrase_roundtrip_counterexample :
    (List.replicate 28 (0 : Nat)).length = 28 ∧
    (∀ j ∈ List.replicate 28 (0 : Nat), j < 1626) ∧
    SeedToPhrase (SeedFromPhrase (List.replicate 28 0)) ≠ List.replicate 28 0 := by
  refine ⟨by decide, by decide, ?_⟩
  rw [seedFromPhrase_rep28, seedToPhrase_rep28]
  decide

/-- C7 (amended): encode inverts decode at the byte-sequence level: for
every nonempty phrase of dictionary indices, re-encoding the full
little-endian byte sequence produced by decoding, before it is
truncated to the 32-byte seed buffer, reproduces the phrase.  With the
truncation performed by SeedFromPhrase the round-trip fails for
28/29-word phrases, whose integers need more than 32 bytes. -/
theorem phrase_roundtrip_untruncated (p : List Nat) (hne : p ≠ [])
    (hlt : ∀ j ∈ p, j < 1626) :
    intToPhrase (bytesToInt (intToBytes (phraseToInt p))) = p := by
  rw [bytesToInt_intToBytes, intToPhrase_phraseToInt p hne hlt]

/-- C7 witness: the untruncated round-trip at the 28-word phrase of
dictionary word 0 repeated. -/
theorem phrase_roundtrip_untruncated_witness :
    intToPhrase (bytesToInt (intToBytes (phraseToInt (List.replicate 28 0)))) =
      List.replicate 28 0 :=
  phrase_roundtrip_untruncated (List.replicate 28 0) (by decide) (by decide)

/-! ## Claims C6 and C10: AddSeed deduplication -/

theorem find?_append_of_none {α : Type} (p : α → Bool) (l1 l2 : List α)
    (h : l1.find? p = none) : (l1 ++ l2).find? p = l2.find? p := by
  induction l1 with
  | nil => simp
  | cons x xs ih =>
    rw [List.find?_cons] at h
    rcases hx : p x with _ | _
    · rw [hx] at h
      rw [List.cons_append, List.find?_cons, hx]
      exact ih h
    · rw [hx] at h
      exact absurd h (by simp)

theorem seedRow_id_le_foldl (l : List SeedRow) (a : Int) :
    a ≤ l.foldl (fun m r => max m r.id) a ∧
    ∀ r ∈ l, r.id ≤ l.foldl (fun m r => max m r.id) a := by
  induction l generalizing a with
  | nil => simp
  | cons x xs ih =>
    refine ⟨?_, ?_⟩
    · exact le_trans (le_max_left a x.id) (ih (max a x.id)).1
    · intro r hr
      rcases List.mem_cons.mp hr with rfl | hr
      · exact le_trans (le_max_right a r.id) (ih (max a r.id)).1
      · exact (ih (max a x.id)).2 r hr

theorem find?_nextRowId_none (s : Store) :
    s.seeds.find? (fun r => r.id == s.nextRowId) = none := by
  rw [List.find?_eq_none]
  intro r hr
  have := (seedRow_id_le_foldl s.seeds 0).2 r hr
  simp only [beq_iff_eq, Store.nextRowId]
  omega

/-- C6: Store.AddSeed is idempotent on the seed MAC: starting from a
store without the MAC, inserting twice returns the very same metadata
(same id) both times, the second call leaves the store untouched, and
exactly one seeds row carries the MAC. -/
theorem addSeed_idempotent (s : Store) (mac : MacV) (e1 e2 : EncBlob) (t1 t2 : Int)
    (hnew : s.seeds.find? (fun r => r.seedMac == mac) = none) :
    (s.AddSeed mac e1 t1).1.AddSeed mac e2 t2 = s.AddSeed mac e1 t1 ∧
    ((s.AddSeed mac e1 t1).1.seeds.filter (fun r => r.seedMac == mac)).length = 1 := by
  have hrow : (s.AddSeed mac e1 t1).1.seeds
      = s.seeds ++ [⟨s.nextRowId, mac, e1, t1⟩] := by
    simp [Store.AddSeed, hnew]
  have hfind2 : (s.AddSeed mac e1 t1).1.seeds.find? (fun r => r.seedMac == mac)
      = some ⟨s.nextRowId, mac, e1, t1⟩ := by
    rw [hrow, find?_append_of_none _ _ _ hnew]
    simp [List.find?_cons]
  have hfilter : ∀ l : List SeedRow, l.find? (fun r => r.seedMac == mac) = none →
      l.filter (fun r => r.seedMac == mac) = [] := by
    intro l hl
    rw [List.filter_eq_nil_iff]
    intro r hr
    exact List.find?_eq_none.mp hl r hr
  refine ⟨?_, ?_⟩
  · show Store.AddSeed _ _ _ _ = _
    rw [Store.AddSeed, hfind2]
    simp [Store.AddSeed, hnew]
  · rw [hrow, List.filter_append, hfilter s.seeds hnew]
    simp

/-- C6 witness: two insertions of one MAC into the empty store. -/
theorem addSeed_idempotent_witness :
    ((⟨[], [], none⟩ : Store).AddSeed ⟨⟨"s", [1]⟩, [2]⟩ ⟨[3], ⟨"s", [1]⟩, [2]⟩ 5).1.AddSeed
        ⟨⟨"s", [1]⟩, [2]⟩ ⟨[4], ⟨"s", [1]⟩, [2]⟩ 6 =
      (⟨[], [], none⟩ : Store).AddSeed ⟨⟨"s", [1]⟩, [2]⟩ ⟨[3], ⟨"s", [1]⟩, [2]⟩ 5 ∧
    (((⟨[], [], none⟩ : Store).AddSeed ⟨⟨"s", [1]⟩, [2]⟩
        ⟨[3], ⟨"s", [1]⟩, [2]⟩ 5).1.seeds.filter
      (fun r => r.seedMac == ⟨⟨"s", [1]⟩, [2]⟩)).length = 1 :=
  addSeed_idempotent ⟨[], [], none⟩ ⟨⟨"s", [1]⟩, [2]⟩ ⟨[3], ⟨"s", [1]⟩, [2]⟩
    ⟨[4], ⟨"s", [1]⟩, [2]⟩ 5 6 (by decide)

theorem find?_by_id_of_mem (l : List SeedRow) (r : SeedRow) (hr : r ∈ l)
    (hu : l.Pairwise (fun a b => a.id ≠ b.id)) :
    l.find? (fun q => q.id == r.id) = some r := by
  induction l with
  | nil => exact absurd hr (by simp)
  | cons x xs ih =>
    rcases List.mem_cons.mp hr with rfl | hr1
    · simp [List.find?_cons]
    · have hx : x.id ≠ r.id := (List.pairwise_cons.mp hu).1 r hr1
      have hb : (x.id == r.id) = false := by simp [hx]
      rw [List.find?_cons, hb]
      exact ih hr1 (List.pairwise_cons.mp hu).2

/-- C10: when AddSeed hits an existing MAC, the store is returned
completely unchanged: the existing row keeps its encrypted_seed and
date_created, the freshly sealed blob and the supplied time are
discarded, and the returned metadata is that of the existing row (its
id and its date_created, under uniqueness of row ids). -/
theorem addSeed_duplicate_frame (s : Store) (mac : MacV) (enc : EncBlob) (t : Int)
    (r : SeedRow) (hfound : s.seeds.find? (fun q => q.seedMac == mac) = some r)
    (hu : s.seeds.Pairwise (fun a b => a.id ≠ b.id)) :
    s.AddSeed mac enc t = (s, .ok ⟨r.id, s.lastIndexOf r.id, r.dateCreated⟩) := by
  have hmem : r ∈ s.seeds := List.mem_of_find?_eq_some hfound
  have hmeta : s.seedMetaRow r.id = .ok ⟨r.id, s.lastIndexOf r.id, r.dateCreated⟩ := by
    rw [Store.seedMetaRow, find?_by_id_of_mem s.seeds r hmem hu]
  rw [Store.AddSeed, hfound]
  show (s, s.seedMetaRow r.id) = _
  rw [hmeta]

/-- C10 witness: a duplicate insertion into a one-row store. -/
theorem addSeed_duplicate_frame_witness :
    (⟨[⟨1, ⟨⟨"s", [1]⟩, [2]⟩, ⟨[3], ⟨"s", [1]⟩, [2]⟩, 5⟩], [], none⟩ : Store).AddSeed
        ⟨⟨"s", [1]⟩, [2]⟩ ⟨[9], ⟨"s", [1]⟩, [7]⟩ 8 =
      (⟨[⟨1, ⟨⟨"s", [1]⟩, [2]⟩, ⟨[3], ⟨"s", [1]⟩, [2]⟩, 5⟩], [], none⟩,
        .ok ⟨1, 0, 5⟩) :=
  addSeed_duplicate_frame _ _ _ _ ⟨1, ⟨⟨"s", [1]⟩, [2]⟩, ⟨[3], ⟨"s", [1]⟩, [2]⟩, 5⟩
    (by decide) (by decide)

/-! ## Claims C3, C4, C5, C9: lock state machine and Unlock -/

instance {e a : Type} [DecidableEq e] [DecidableEq a] : DecidableEq (Except e a) :=
  fun x y =>
    match x, y with
    | .error v1, .error v2 =>
      if h : v1 = v2 then .isTrue (h ▸ rfl) else .isFalse (fun hc => h (by cases hc; rfl))
    | .ok v1, .ok v2 =>
      if h : v1 = v2 then .isTrue (h ▸ rfl) else .isFalse (fun hc => h (by cases hc; rfl))
    | .error _, .ok _ => .isFalse (fun hc => Except.noConfusion hc)
    | .ok _, .error _ => .isFalse (fun hc => Except.noConfusion hc)

theorem nextIndex_ok_of_mem (s : Store) (seedID : Int)
    (h : s.seeds.any (fun r => r.id == seedID) = true) :
    ∃ idx, s.NextIndex seedID = .ok idx := by
  rw [Store.NextIndex, if_pos h]
  cases s.signingKeys.filter (fun r => r.seedId == seedID) with
  | nil => exact ⟨_, rfl⟩
  | cons x xs => exact ⟨_, rfl⟩

/-- C3 (amended): while the vault is locked, AddSeed fails with
ErrLocked and leaves the store unchanged; NextKey and Sign fail with a
wrapped ErrLocked provided their store lookup succeeds (an unknown seed
or key makes the lookup error, e.g. ErrNotFound, surface first); and
Seeds, SeedMeta and SeedKeys perform no lock check at all, returning
the store result unchanged.  No operation installs the capabilities, so
the vault remains locked throughout. -/
theorem locked_ops (v : Vault) (s : Store)
    (hlocked : v.isLocked = some .locked) :
    (∀ seed nonce now, v.AddSeed s seed nonce now = (s, .error .locked)) ∧
    (∀ limit offset, v.Seeds s limit offset = s.Seeds limit offset) ∧
    (∀ seedID, v.SeedMetaOf s seedID = s.SeedMetaOf seedID) ∧
    (∀ seedID offset limit, v.SeedKeys s seedID offset limit = s.SeedKeys seedID offset limit) ∧
    (∀ seedID, s.seeds.any (fun r => r.id == seedID) = true →
      v.NextKey s seedID = (s, .error (.wrapped "failed to derive private key" .locked))) ∧
    (∀ pk h idx, s.SigningKeyIndex pk = .ok idx →
      v.Sign s pk h = .error (.wrapped "failed to derive private key" .locked)) := by
  obtain ⟨a, m⟩ := v
  have hderive : ∀ seedID index,
      Vault.derivePrivateKey ⟨a, m⟩ s seedID index = .error .locked := by
    intro seedID index
    cases a with
    | none => cases m <;> rfl
    | some ka =>
      cases m with
      | none => rfl
      | some km => exact absurd hlocked (by simp [Vault.isLocked])
  refine ⟨?_, fun _ _ => rfl, fun _ => rfl, fun _ _ _ => rfl, ?_, ?_⟩
  · intro seed nonce now
    cases a with
    | none => cases m <;> rfl
    | some ka =>
      cases m with
      | none => rfl
      | some km => exact absurd hlocked (by simp [Vault.isLocked])
  · intro seedID hmem
    obtain ⟨idx, hidx⟩ := nextIndex_ok_of_mem s seedID hmem
    simp only [Vault.NextKey, hidx, hderive]
  · intro pk h idx hfound
    obtain ⟨seedID, index⟩ := idx
    simp only [Vault.Sign, hfound, hderive]

/-- C3 counterexample: with the vault locked and one stored seed,
SeedMeta succeeds and returns the seed metadata instead of the ErrLocked
the claim requires for every operation in the set. -/
theorem locked_seedMeta_counterexample :
    (⟨none, none⟩ : Vault).isLocked = some .locked ∧
    (⟨none, none⟩ : Vault).SeedMetaOf
        ⟨[⟨1, ⟨⟨"g", [1]⟩, [2]⟩, ⟨[3], ⟨"g", [1]⟩, [2]⟩, 5⟩], [], none⟩ 1 =
      .ok ⟨1, 0, 5⟩ := by
  decide

/-- C3 witness: the locked-state behavior at a concrete store holding
one seed and one derived key. -/
theorem locked_ops_witness :
    (⟨none, none⟩ : Vault).AddSeed
        ⟨[⟨1, ⟨⟨"g", [1]⟩, [2]⟩, ⟨[3], ⟨"g", [1]⟩, [2]⟩, 5⟩], [⟨.raw [9], 1, 0⟩], none⟩
        [9] [8] 7 =
      (⟨[⟨1, ⟨⟨"g", [1]⟩, [2]⟩, ⟨[3], ⟨"g", [1]⟩, [2]⟩, 5⟩], [⟨.raw [9], 1, 0⟩], none⟩,
        .error .locked) ∧
    (⟨none, none⟩ : Vault).Sign
        ⟨[⟨1, ⟨⟨"g", [1]⟩, [2]⟩, ⟨[3], ⟨"g", [1]⟩, [2]⟩, 5⟩], [⟨.raw [9], 1, 0⟩], none⟩
        (.raw [9]) 3 =
      .error (.wrapped "failed to derive private key" .locked) := by
  have h := locked_ops ⟨none, none⟩
    ⟨[⟨1, ⟨⟨"g", [1]⟩, [2]⟩, ⟨[3], ⟨"g", [1]⟩, [2]⟩, 5⟩], [⟨.raw [9], 1, 0⟩], none⟩
    (by decide)
  exact ⟨h.1 [9] [8] 7, h.2.2.2.2.2 (.raw [9]) 3 (1, 0) (by decide)⟩

/-- C9: Vault.Sign performs the store lookup of the signing-key index
before any lock check, so with a locked vault and an unknown public key
it returns the wrapped ErrNotFound of the lookup, which matches
ErrNotFound and not ErrLocked under errors.Is. -/
theorem sign_unknown_key_while_locked (v : Vault) (s : Store) (pk : VPK) (h : Nat)
    (_hlocked : v.isLocked = some .locked)
    (hunknown : s.SigningKeyIndex pk = .error .notFound) :
    v.Sign s pk h = .error (.wrapped "failed to get signing key" .notFound) ∧
    (VErr.wrapped "failed to get signing key" .notFound).is .notFound = true ∧
    (VErr.wrapped "failed to get signing key" .notFound).is .locked = false := by
  refine ⟨?_, by decide, by decide⟩
  rw [Vault.Sign, hunknown]

/-- C9 witness: a locked vault over the empty store and a raw key. -/
theorem sign_unknown_key_while_locked_witness :
    (⟨none, none⟩ : Vault).Sign ⟨[], [], none⟩ (.raw [4]) 3 =
      .error (.wrapped "failed to get signing key" .notFound) ∧
    (VErr.wrapped "failed to get signing key" .notFound).is .notFound = true ∧
    (VErr.wrapped "failed to get signing key" .notFound).is .locked = false :=
  sign_unknown_key_while_locked ⟨none, none⟩ ⟨[], [], none⟩ (.raw [4]) 3
    (by decide) (by decide)

/-- C4: with a stored salt and a stored seed blob sealed under the key
derived from the correct secret, Unlock with the correct secret
installs both capabilities; a second Unlock of the resulting vault
fails with ErrUnlocked whatever its arguments; and Unlock with a wrong
secret fails with ErrIncorrectSecret, returns the vault state
unchanged, and installs nothing, leaving the vault locked. -/
theorem unlock_state_machine (v : Vault) (salt : List Nat) (blob : EncBlob)
    (good wrong : String) (fresh : List Nat) (setRes : Except VErr Unit)
    (hlocked : v.isLocked = some .locked)
    (hsalt : salt ≠ [])
    (hblob : blob.key = ⟨good, salt⟩)
    (hwrong : wrong ≠ good) :
    v.Unlock (.ok salt) fresh setRes (.ok blob) good =
      (⟨some ⟨good, salt⟩, some ⟨good, salt⟩⟩, none) ∧
    (∀ saltRes2 fresh2 set2 verify2 secret2,
      (⟨some ⟨good, salt⟩, some ⟨good, salt⟩⟩ : Vault).Unlock
          saltRes2 fresh2 set2 verify2 secret2 =
        (⟨some ⟨good, salt⟩, some ⟨good, salt⟩⟩, some .unlocked)) ∧
    v.Unlock (.ok salt) fresh setRes (.ok blob) wrong = (v, some .incorrectSecret) ∧
    (v.Unlock (.ok salt) fresh setRes (.ok blob) wrong).1.isLocked = some .locked := by
  have hcond : (v.aead.isSome && v.mac.isSome) = false := by
    cases hc : (v.aead.isSome && v.mac.isSome) with
    | false => rfl
    | true => exact absurd hlocked (by simp [Vault.isLocked, hc])
  have hlen : ¬ salt.length = 0 := by
    simpa using hsalt
  have hgood : v.Unlock (.ok salt) fresh setRes (.ok blob) good =
      (⟨some ⟨good, salt⟩, some ⟨good, salt⟩⟩, none) := by
    simp [Vault.Unlock, hcond, hlen, hblob]
  have hbad : v.Unlock (.ok salt) fresh setRes (.ok blob) wrong =
      (v, some .incorrectSecret) := by
    have hne : blob.key ≠ ⟨wrong, salt⟩ := by
      rw [hblob]
      intro hc
      exact hwrong (congrArg DKey.secret hc).symm
    simp [Vault.Unlock, hcond, hlen, hne]
  refine ⟨hgood, ?_, hbad, ?_⟩
  · intro saltRes2 fresh2 set2 verify2 secret2
    simp [Vault.Unlock]
  · rw [hbad]
    exact hlocked

/-- C4 witness: the three transitions at concrete values. -/
theorem unlock_state_machine_witness :
    (⟨none, none⟩ : Vault).Unlock (.ok [1]) [4] (.ok ())
        (.ok ⟨[2], ⟨"good", [1]⟩, [3]⟩) "good" =
      (⟨some ⟨"good", [1]⟩, some ⟨"good", [1]⟩⟩, none) ∧
    (∀ saltRes2 fresh2 set2 verify2 secret2,
      (⟨some ⟨"good", [1]⟩, some ⟨"good", [1]⟩⟩ : Vault).Unlock
          saltRes2 fresh2 set2 verify2 secret2 =
        (⟨some ⟨"good", [1]⟩, some ⟨"good", [1]⟩⟩, some .unlocked)) ∧
    (⟨none, none⟩ : Vault).Unlock (.ok [1]) [4] (.ok ())
        (.ok ⟨[2], ⟨"good", [1]⟩, [3]⟩) "bad" =
      (⟨none, none⟩, some .incorrectSecret) ∧
    ((⟨none, none⟩ : Vault).Unlock (.ok [1]) [4] (.ok ())
        (.ok ⟨[2], ⟨"good", [1]⟩, [3]⟩) "bad").1.isLocked = some .locked :=
  unlock_state_machine ⟨none, none⟩ [1] ⟨[2], ⟨"good", [1]⟩, [3]⟩ "good" "bad" [4]
    (.ok ()) (by decide) (by decide) (by decide) (by decide)

/-- C5 counterexample: when the stored salt reads back empty and
SetKeySalt then fails with ErrSaltSet (a salt set concurrently), Unlock
returns the wrapped ErrSaltSet error and stays locked; it does not
reread the stored salt and proceed as the claim requires. -/
theorem unlock_saltset_counterexample :
    (⟨none, none⟩ : Vault).Unlock (.ok []) [7] (.error .saltSet)
        (.error .notFound) "secret" =
      (⟨none, none⟩, some (.wrapped "failed to set key salt" .saltSet)) ∧
    ((⟨none, none⟩ : Vault).Unlock (.ok []) [7] (.error .saltSet)
        (.error .notFound) "secret").2 ≠ none := by
  decide

/-- C5 (amended): during Unlock, a missing key salt leads to SetKeySalt
with fresh random bytes; if SetKeySalt fails (in particular with
ErrSaltSet when the salt was set concurrently), Unlock fails with the
wrapped error and the vault stays locked and unchanged; there is no
reread of the stored salt. -/
theorem unlock_saltset_fails (v : Vault) (fresh : List Nat) (secret : String)
    (verifyRes : Except VErr EncBlob)
    (hlocked : v.isLocked = some .locked) :
    v.Unlock (.ok []) fresh (.error .saltSet) verifyRes secret =
      (v, some (.wrapped "failed to set key salt" .saltSet)) := by
  have hcond : (v.aead.isSome && v.mac.isSome) = false := by
    cases hc : (v.aead.isSome && v.mac.isSome) with
    | false => rfl
    | true => exact absurd hlocked (by simp [Vault.isLocked, hc])
  simp [Vault.Unlock, hcond]

/-- C5 witness: the failure at concrete values. -/
theorem unlock_saltset_fails_witness :
    (⟨none, none⟩ : Vault).Unlock (.ok []) [9] (.error .saltSet)
        (.ok ⟨[2], ⟨"g", [1]⟩, [3]⟩) "g" =
      (⟨none, none⟩, some (.wrapped "failed to set key salt" .saltSet)) :=
  unlock_saltset_fails ⟨none, none⟩ [9] "g" (.ok ⟨[2], ⟨"g", [1]⟩, [3]⟩) (by decide)

/-! ## Claims C8, C2, C1: the sign handlers -/

/-- C8: for the sign handlers, omitting both state and network uses the
external TipState result; providing both uses the request state verbatim
with its network pointer replaced by the request network; providing
exactly one of the two is an error that both handlers turn into HTTP
400. -/
theorem consensus_state_resolution (tipRes : Except VErr CState) (st : CState)
    (nw : Network) (vsign : PublicKeyBytes → Nat → Except VErr Nat)
    (whole : CState → Transaction → Nat → Nat → Nat → Nat)
    (covered : CState → Transaction → CoveredFields → Nat)
    (inputSigHash : CState → V2Transaction → Nat)
    (txn : Transaction) (txn2 : V2Transaction) :
    getConsensusState tipRes none none = tipRes ∧
    getConsensusState tipRes (some st) (some nw) = .ok { st with network := nw } ∧
    getConsensusState tipRes (some st) none =
      .error (.other "network must be provided if state is provided") ∧
    getConsensusState tipRes none (some nw) =
      .error (.other "state must be provided if network is provided") ∧
    handlePOSTSign tipRes (some st) none vsign whole covered txn =
      .err 400 (.other "network must be provided if state is provided") ∧
    handlePOSTSign tipRes none (some nw) vsign whole covered txn =
      .err 400 (.other "state must be provided if network is provided") ∧
    handlePOSTSignV2 tipRes (some st) none vsign inputSigHash txn2 =
      .err 400 (.other "network must be provided if state is provided") ∧
    handlePOSTSignV2 tipRes none (some nw) vsign inputSigHash txn2 =
      .err 400 (.other "state must be provided if network is provided") :=
  ⟨rfl, rfl, rfl, rfl, rfl, rfl, rfl, rfl⟩

/-- C2: the current handlePOSTSign performs no hardfork height check.
At the failing input of the claim - consensus height 20 with require
height 20 and a transaction with one signable whole-transaction entry -
the handler signs and returns HTTP 200 with fullySigned true instead of
failing with HTTP 400 and adding no signature. -/
theorem signV1_no_require_height_check :
    (20 : Nat) ≥ (20 : Nat) ∧
    handlePOSTSign (.error .notFound) (some ⟨20, ⟨0, 0⟩⟩) (some ⟨10, 20⟩)
        (fun _ _ => .ok 99) (fun _ _ _ _ _ => 5) (fun _ _ _ => 6)
        ⟨[⟨7, ⟨0, [⟨"ed25519", List.replicate 32 1⟩], 1⟩⟩], [],
          [⟨7, 0, 0, ⟨true⟩, none⟩]⟩ =
      .ok ⟨⟨[⟨7, ⟨0, [⟨"ed25519", List.replicate 32 1⟩], 1⟩⟩], [],
          [⟨7, 0, 0, ⟨true⟩, some 99⟩]⟩, true⟩ := by
  refine ⟨by omega, ?_⟩
  decide

/-- C1 counterexample: a v2 transaction with one input whose policy is
Threshold(n = 2, of = [PublicKey(pk_ours), PublicKey(pk_other)]) where
only pk_ours is in the vault comes back with exactly one signature
appended and fullySigned = true, not false: the threshold loop counts
attempted sub-policies, so the silently skipped pk_other still
increments the counter and the threshold is deemed met. -/
theorem signV2_threshold_counterexample :
    handlePOSTSignV2 (.error .notFound) (some ⟨15, ⟨0, 0⟩⟩) (some ⟨10, 20⟩)
        (fun pk _ => if pk = [1] then .ok 77
          else .error (.wrapped "failed to get signing key" .notFound))
        (fun _ _ => 0)
        ⟨[⟨⟨.threshold 2 [.publicKey [1], .publicKey [2]], []⟩⟩], []⟩ =
      .ok ⟨⟨[⟨⟨.threshold 2 [.publicKey [1], .publicKey [2]], [77]⟩⟩], []⟩, true⟩ := by
  simp [handlePOSTSignV2, getConsensusState, signSatisfied, signPolicy, signThreshold,
    VErr.is]

/-- C1 (amended): for a v2 sign request whose height is at or above the
allow height, containing one input with policy Threshold(n = 2,
of = [PublicKey(pk_ours), PublicKey(pk_other)]) where the vault signs
pk_ours and reports ErrNotFound for pk_other, the handler returns the
transaction with exactly one signature appended to the satisfied-policy
signatures of that input and fullySigned = true: the threshold
counter counts attempted sub-policies rather than signatures actually
added, so the threshold is considered met. -/
theorem signV2_threshold_one_of_two (tipRes : Except VErr CState) (st : CState)
    (nw : Network) (pkA pkB : PublicKeyBytes) (sigv : Nat)
    (inputSigHash : CState → V2Transaction → Nat)
    (hne : pkB ≠ pkA)
    (hheight : nw.allowHeight ≤ st.height) :
    handlePOSTSignV2 tipRes (some st) (some nw)
        (fun pk _ => if pk = pkA then .ok sigv
          else .error (.wrapped "failed to get signing key" .notFound))
        inputSigHash
        ⟨[⟨⟨.threshold 2 [.publicKey pkA, .publicKey pkB], []⟩⟩], []⟩ =
      .ok ⟨⟨[⟨⟨.threshold 2 [.publicKey pkA, .publicKey pkB], [sigv]⟩⟩], []⟩, true⟩ := by
  have hh : ¬ (st.height < nw.allowHeight) := by omega
  simp [handlePOSTSignV2, getConsensusState, hh, signSatisfied, signPolicy,
    signThreshold, hne, VErr.is]

/-- C1 witness: the amended scenario at concrete keys. -/
theorem signV2_threshold_one_of_two_witness :
    handlePOSTSignV2 (.ok ⟨0, ⟨0, 0⟩⟩) (some ⟨12, ⟨9, 9⟩⟩) (some ⟨11, 21⟩)
        (fun pk _ => if pk = [3] then .ok 55
          else .error (.wrapped "failed to get signing key" .notFound))
        (fun _ _ => 4)
        ⟨[⟨⟨.threshold 2 [.publicKey [3], .publicKey [4]], []⟩⟩], []⟩ =
      .ok ⟨⟨[⟨⟨.threshold 2 [.publicKey [3], .publicKey [4]], [55]⟩⟩], []⟩, true⟩ :=
  signV2_threshold_one_of_two (.ok ⟨0, ⟨0, 0⟩⟩) ⟨12, ⟨9, 9⟩⟩ ⟨11, 21⟩ [3] [4] 55
    (fun _ _ => 4) (by decide) (by decide)
